import Mathlib

/-!
Verification development for the flowcode CLI (src/cli/flowcode.js).

The file shallowly embeds the core of the program: the JSON value model
and a model of JavaScript's JSON.parse, the plan-JSON extraction scanner
(extractPlanJson), the plan versioning functions (getNextPlanVersion,
writePlanFiles), the session store (addMessage) and the plan phase of the
main loop, together with theorems about them.

Strings are handled through their underlying character lists so that the
embedding matches JavaScript string semantics (split, trim, startsWith)
literally and stays kernel-computable.
-/

namespace Flowcode

/-! ## JSON values

Model of the JavaScript JSON value universe as produced by JSON.parse.
Numbers keep their source literal: no claim inspects a numeric value, and
this avoids modelling IEEE floats; number truthiness is decided from the
digits of the literal.  Object member lists keep every member in source
order; member access takes the last binding with the key, as JS object
literals built by JSON.parse keep the last duplicate.
-/

inductive Json where
  | null : Json
  | bool (b : Bool) : Json
  | num (lit : String) : Json
  | str (s : String) : Json
  | arr (elems : List Json) : Json
  | obj (members : List (String × Json)) : Json
deriving Repr

/-! ## A model of JSON.parse

Recursive-descent parser over the character list, following the JSON
grammar that JSON.parse accepts (RFC 8259): strict string escapes,
no leading zeros, no trailing commas, only the four JSON whitespace
characters between tokens.  Surrogate-pair recombination of \uXXXX
escapes is not modelled (no claim exercises it).  The mutual recursion
is fuelled; the fuel 2*length+4 dominates the recursion depth because
every two recursive calls consume at least one input character.
-/

def isJsonWs (c : Char) : Bool :=
  c = ' ' || c = '\t' || c = '\n' || c = '\r'

def skipWs : List Char → List Char
  | [] => []
  | c :: rest => if isJsonWs c then skipWs rest else c :: rest

def hexVal (c : Char) : Option Nat :=
  if '0' ≤ c ∧ c ≤ '9' then some (c.toNat - 48)
  else if 'a' ≤ c ∧ c ≤ 'f' then some (c.toNat - 87)
  else if 'A' ≤ c ∧ c ≤ 'F' then some (c.toNat - 55)
  else none

def parseStrAux : List Char → List Char → Option (String × List Char)
  | acc, '"' :: rest => some (String.mk acc.reverse, rest)
  | acc, '\\' :: '"' :: rest => parseStrAux ('"' :: acc) rest
  | acc, '\\' :: '\\' :: rest => parseStrAux ('\\' :: acc) rest
  | acc, '\\' :: '/' :: rest => parseStrAux ('/' :: acc) rest
  | acc, '\\' :: 'b' :: rest => parseStrAux (Char.ofNat 8 :: acc) rest
  | acc, '\\' :: 'f' :: rest => parseStrAux (Char.ofNat 12 :: acc) rest
  | acc, '\\' :: 'n' :: rest => parseStrAux ('\n' :: acc) rest
  | acc, '\\' :: 'r' :: rest => parseStrAux ('\r' :: acc) rest
  | acc, '\\' :: 't' :: rest => parseStrAux ('\t' :: acc) rest
  | acc, '\\' :: 'u' :: h1 :: h2 :: h3 :: h4 :: rest =>
    match hexVal h1, hexVal h2, hexVal h3, hexVal h4 with
    | some a, some b, some c, some d =>
      parseStrAux (Char.ofNat (a * 4096 + b * 256 + c * 16 + d) :: acc) rest
    | _, _, _, _ => none
  | _, '\\' :: _ => none
  | acc, c :: rest => if c.toNat < 32 then none else parseStrAux (c :: acc) rest
  | _, [] => none

def digitSpan : List Char → List Char × List Char
  | [] => ([], [])
  | c :: rest =>
    if c.isDigit then
      let (a, b) := digitSpan rest
      (c :: a, b)
    else ([], c :: rest)

def parseIntPart : List Char → Option (List Char × List Char)
  | '0' :: rest => some (['0'], rest)
  | c :: rest =>
    if c.isDigit then
      let (a, b) := digitSpan rest
      some (c :: a, b)
    else none
  | [] => none

def parseFracPart : List Char → Option (List Char × List Char)
  | '.' :: rest =>
    match digitSpan rest with
    | ([], _) => none
    | (ds, r) => some ('.' :: ds, r)
  | cs => some ([], cs)

def parseExpPart : List Char → Option (List Char × List Char)
  | c :: rest =>
    if c = 'e' ∨ c = 'E' then
      match rest with
      | s :: rest2 =>
        if s = '+' ∨ s = '-' then
          match digitSpan rest2 with
          | ([], _) => none
          | (ds, r) => some (c :: s :: ds, r)
        else
          match digitSpan rest with
          | ([], _) => none
          | (ds, r) => some (c :: ds, r)
      | [] => none
    else some ([], c :: rest)
  | [] => some ([], [])

def parseNum (cs : List Char) : Option (String × List Char) :=
  let signed : List Char × List Char :=
    match cs with
    | '-' :: rest => (['-'], rest)
    | _ => ([], cs)
  match parseIntPart signed.2 with
  | none => none
  | some (ip, cs2) =>
    match parseFracPart cs2 with
    | none => none
    | some (fp, cs3) =>
      match parseExpPart cs3 with
      | none => none
      | some (ep, cs4) => some (String.mk (signed.1 ++ ip ++ fp ++ ep), cs4)

mutual

def parseVal : Nat → List Char → Option (Json × List Char)
  | 0, _ => none
  | f + 1, cs =>
    match skipWs cs with
    | 't' :: 'r' :: 'u' :: 'e' :: rest => some (Json.bool true, rest)
    | 'f' :: 'a' :: 'l' :: 's' :: 'e' :: rest => some (Json.bool false, rest)
    | 'n' :: 'u' :: 'l' :: 'l' :: rest => some (Json.null, rest)
    | '"' :: rest =>
      match parseStrAux [] rest with
      | some (s, r) => some (Json.str s, r)
      | none => none
    | '[' :: rest =>
      (match skipWs rest with
       | ']' :: r2 => some (Json.arr [], r2)
       | r2 =>
         match parseItems f r2 with
         | some (vs, r3) => some (Json.arr vs, r3)
         | none => none)
    | '{' :: rest =>
      (match skipWs rest with
       | '}' :: r2 => some (Json.obj [], r2)
       | r2 =>
         match parseMembers f r2 with
         | some (kvs, r3) => some (Json.obj kvs, r3)
         | none => none)
    | other =>
      match parseNum other with
      | some (lit, r) => some (Json.num lit, r)
      | none => none

def parseItems : Nat → List Char → Option (List Json × List Char)
  | 0, _ => none
  | f + 1, cs =>
    match parseVal f cs with
    | none => none
    | some (v, r) =>
      match skipWs r with
      | ',' :: r2 =>
        match parseItems f r2 with
        | some (vs, r3) => some (v :: vs, r3)
        | none => none
      | ']' :: r2 => some ([v], r2)
      | _ => none

def parseMembers : Nat → List Char → Option (List (String × Json) × List Char)
  | 0, _ => none
  | f + 1, cs =>
    match skipWs cs with
    | '"' :: rest =>
      match parseStrAux [] rest with
      | none => none
      | some (k, r) =>
        match skipWs r with
        | ':' :: r2 =>
          match parseVal f r2 with
          | none => none
          | some (v, r3) =>
            match skipWs r3 with
            | ',' :: r4 =>
              match parseMembers f r4 with
              | some (kvs, r5) => some ((k, v) :: kvs, r5)
              | none => none
            | '}' :: r4 => some ([(k, v)], r4)
            | _ => none
        | _ => none
    | _ => none

end

/-- Model of JSON.parse: parse one value, then require only whitespace
to remain; any violation is a SyntaxError, modelled as none. -/
def Json.parse (s : String) : Option Json :=
  match parseVal (2 * s.data.length + 4) s.data with
  | some (v, rest) => if skipWs rest = [] then some v else none
  | none => none

/-! ## JavaScript string primitives used by the source

These mirror the JS methods applied to the ASCII text the program
handles: String.prototype.split('\n'), trim(), startsWith(), and a
brace counter for `(line.match(/\{/g) || []).length`.  They are defined
over the character list so that proofs and kernel evaluation are direct.
-/

/-- s.split('\n'): every newline separates, empty pieces kept. -/
def splitNlAux : List Char → List Char → List String
  | acc, [] => [String.mk acc.reverse]
  | acc, c :: rest =>
    if c = '\n' then String.mk acc.reverse :: splitNlAux [] rest
    else splitNlAux (c :: acc) rest

def jsLines (s : String) : List String :=
  splitNlAux [] s.data

/-- The whitespace class of String.prototype.trim (ASCII part plus
no-break space and BOM; the program's inputs are ASCII). -/
def isJsWs (c : Char) : Bool :=
  c = ' ' || c = '\t' || c = '\n' || c = '\r' ||
  c = Char.ofNat 11 || c = Char.ofNat 12 || c = Char.ofNat 160 || c = Char.ofNat 65279

def jsTrim (s : String) : String :=
  String.mk (((s.data.dropWhile isJsWs).reverse.dropWhile isJsWs).reverse)

def jsStartsWith (s pre : String) : Bool :=
  pre.data.isPrefixOf s.data

/-- String.prototype.toLowerCase on the ASCII section names. -/
def jsLowerChar (c : Char) : Char :=
  if 'A' ≤ c ∧ c ≤ 'Z' then Char.ofNat (c.toNat + 32) else c

def jsToLower (s : String) : String :=
  String.mk (s.data.map jsLowerChar)

/-- Net brace depth contribution of one line:
count of '{' minus count of '}'. -/
def braceDelta (line : String) : Int :=
  (line.data.count '{' : Int) - (line.data.count '}' : Int)

/-! ## The extraction scanner (extractPlanJson)

Direct embedding of the line loop of extractPlanJson in flowcode.js.
`break` is modelled with a `done` flag that freezes the state.
-/

structure ScanState where
  jsonContent : String
  inJsonBlock : Bool
  braceCount : Int
  started : Bool
  done : Bool
deriving Repr

def initScan : ScanState :=
  { jsonContent := "", inJsonBlock := false, braceCount := 0, started := false, done := false }

/-- A line whose trimmed form opens a candidate block. -/
def isOpener (line : String) : Bool :=
  jsStartsWith (jsTrim line) "```md" || jsStartsWith (jsTrim line) "```json"

/-- One iteration of the for-loop of extractPlanJson. -/
def scanLine (st : ScanState) (line : String) : ScanState :=
  if st.done then st
  else if (!st.inJsonBlock) && isOpener line then
    { st with inJsonBlock := true, started := false, braceCount := 0, jsonContent := "" }
  else if st.inJsonBlock then
    if (jsTrim line == "```") && st.started && (st.braceCount == 0) then
      { st with done := true }
    else
      let started := st.started || jsStartsWith (jsTrim line) "\x7b"
      if started then
        { st with started := started,
                  jsonContent := st.jsonContent ++ line ++ "\n",
                  braceCount := st.braceCount + braceDelta line }
      else st
  else st

/-! ## The raw-JSON fallback

Model of `response.match(/\{[\s\S]*"files"[\s\S]*\}/)`: with both
quantifiers greedy and a leftmost match start, the matched substring
runs from the first '{' that is followed (strictly later) by the
substring `"files"` which in turn is followed by a '}', up to the last
'}' of the whole text.
-/

def filesNeedle : List Char := "\"files\"".data

/-- Is there an occurrence of `"files"` somewhere in the list with a
'}' occurring after the end of that occurrence? -/
def filesThenBrace : List Char → Bool
  | [] => false
  | c :: rest =>
    (filesNeedle.isPrefixOf (c :: rest) && (rest.drop 6).contains '}') || filesThenBrace rest

/-- Index of the first '{' whose strict suffix contains `"files"`
followed later by '}'. -/
def firstValidBrace : List Char → Option Nat
  | [] => none
  | c :: rest =>
    if c = '{' && filesThenBrace rest then some 0
    else (firstValidBrace rest).map (· + 1)

/-- Index of the last '}' in the list. -/
def lastBraceIdx : List Char → Option Nat
  | [] => none
  | c :: rest =>
    match lastBraceIdx rest with
    | some n => some (n + 1)
    | none => if c = '}' then some 0 else none

def rawJsonFallback (s : String) : Option Json :=
  let cs := s.data
  match firstValidBrace cs with
  | none => none
  | some i =>
    match lastBraceIdx cs with
    | none => none
    | some k => Json.parse (String.mk ((cs.drop i).take (k + 1 - i)))

/-- extractPlanJson: run the scanner over the lines; if it accumulated
candidate text, JSON.parse it (a parse failure returns null without
trying the fallback); otherwise try the raw-JSON fallback. -/
def extractPlanJson (response : String) : Option Json :=
  let st := (jsLines response).foldl scanLine initScan
  if jsTrim st.jsonContent == "" then rawJsonFallback response
  else Json.parse st.jsonContent

/-! ## Truthiness, member access and the plan guard

main() runs the versioning phase under `if (planJson && planJson.files)`;
writePlanFiles writes a section under `if (files[fileName])`.  Both are
JavaScript truthiness tests, and member access on a non-object JSON value
yields undefined (modelled as none).
-/

/-- JS truthiness of a JSON value: null, false, 0 and "" are falsy.
A numeric literal denotes zero exactly when it has no nonzero digit. -/
def jsTruthy : Json → Bool
  | Json.null => false
  | Json.bool b => b
  | Json.num lit => lit.data.any (fun c => c.isDigit && c ≠ '0')
  | Json.str s => s != ""
  | Json.arr _ => true
  | Json.obj _ => true

/-- Last binding of a key in an object member list (JSON.parse keeps the
last duplicate member). -/
def lookupLast (kvs : List (String × Json)) (k : String) : Option Json :=
  kvs.foldl (fun acc kv => if kv.1 = k then some kv.2 else acc) none

/-- Property access `value[key]` / `value.key`; undefined is none. -/
def jsGet (j : Json) (k : String) : Option Json :=
  match j with
  | Json.obj kvs => lookupLast kvs k
  | _ => none

/-- The guard `planJson && planJson.files` of main(). -/
def planGuard (planJson : Json) : Bool :=
  jsTruthy planJson &&
    (match jsGet planJson "files" with
     | some v => jsTruthy v
     | none => false)

/-- The `planJson.files` value handed to writePlanFiles (only used when
planGuard holds, so the default is never reached). -/
def jsFilesOf (planJson : Json) : Json :=
  (jsGet planJson "files").getD Json.null

/-- The fixed section order of writePlanFiles. -/
def fileOrder : List String :=
  ["PRD", "ARCHITECTURE", "STACK", "TASKS", "STRUCTURE", "SCHEMA",
   "CONVENTIONS", "ENV", "API", "UI", "ERRORS"]

/-- The sections writePlanFiles actually writes: recognized section
names whose value in `files` passes `if (files[fileName])`, in the fixed
order, with their values.  This is the PlanArtifactSet the program
materializes. -/
def sectionsToWrite (files : Json) : List (String × Json) :=
  fileOrder.filterMap fun name =>
    match jsGet files name with
    | some v => if jsTruthy v then some (name, v) else none
    | none => none

/-- The spec-level `extract` contract: extractPlanJson followed by
main()'s guard, yielding the PlanArtifactSet on success.  NotFound is
none. -/
def extract (response : String) : Option (List (String × Json)) :=
  match extractPlanJson response with
  | none => none
  | some planJson =>
    if planGuard planJson then some (sectionsToWrite (jsFilesOf planJson))
    else none

/-! ## Filesystem model

Paths are segment lists (path.join concatenates segments).  `files`
associates a full path to its content, newest write first, so a read
takes the first hit; `dirs` is the set of directories created.  This is
the part of the filesystem state the plan functions touch.
-/

structure FS where
  files : List (List String × String)
  dirs : List (List String)
deriving Repr, DecidableEq

def FS.writeF (fs : FS) (p : List String) (c : String) : FS :=
  { fs with files := (p, c) :: fs.files }

def FS.addDir (fs : FS) (d : List String) : FS :=
  { fs with dirs := d :: fs.dirs }

/-- fs.existsSync on a directory path. -/
def FS.dirExists (fs : FS) (d : List String) : Bool :=
  decide (d ∈ fs.dirs)

/-- Latest content of a file, none when it does not exist. -/
def FS.readF (fs : FS) (p : List String) : Option String :=
  (fs.files.find? (fun e => e.1 == p)).map (fun e => e.2)

/-- The name under `parent` contributed by a full path (readdirSync
lists immediate children, directories and plain files alike). -/
def childName (parent p : List String) : Option String :=
  match p.dropLast == parent, p.getLast? with
  | true, some n => some n
  | _, _ => none

/-- fs.readdirSync(dir): names of immediate children, whether they are
directories or plain files. -/
def FS.readdir (fs : FS) (dir : List String) : List String :=
  fs.dirs.filterMap (childName dir) ++ (fs.files.map (fun e => e.1)).filterMap (childName dir)

/-! ## Plan versioning (getNextPlanVersion, writePlanFiles) -/

/-- The filter `d.startsWith('v') && /^\d+$/.test(d.substring(1))`. -/
def versionFilter (d : String) : Bool :=
  match d.data with
  | 'v' :: rest => rest ≠ [] && rest.all Char.isDigit
  | _ => false

/-- parseInt on an all-digit string. -/
def parseIntDigits (s : String) : Nat :=
  s.data.foldl (fun n c => n * 10 + (c.toNat - 48)) 0

/-- Core of getNextPlanVersion on the entry listing of the plan root:
1 when no entry matches, otherwise max version + 1. -/
def nextFromEntries (entries : List String) : Nat :=
  let dirs := entries.filter versionFilter
  if dirs.isEmpty then 1
  else (dirs.map (fun d => parseIntDigits (String.mk d.data.tail))).foldl max 0 + 1

/-- getNextPlanVersion(projectPath): 1 when the plan root does not
exist, otherwise computed from its entry listing. -/
def getNextPlanVersion (fs : FS) (planFolder : List String) : Nat :=
  if fs.dirExists planFolder then nextFromEntries (fs.readdir planFolder)
  else 1

/-- The full ordered sequence of writeFileSync calls writePlanFiles
performs: each present truthy section into the versioned folder, then
the same set again into the plan root. -/
def planWriteList (planFolder vf : List String) (files : Json) : List (List String × Json) :=
  ((sectionsToWrite files).map (fun nv => (vf ++ [jsToLower nv.1 ++ ".md"], nv.2)))
    ++ ((sectionsToWrite files).map (fun nv => (planFolder ++ [jsToLower nv.1 ++ ".md"], nv.2)))

/-- Run the write sequence.  `failAt = some i` makes the i-th
writeFileSync throw (a mid-write I/O error); a non-string section value
also throws (writeFileSync TypeError).  The Bool reports overall
success; on failure the files already written remain. -/
def writeGo (failAt : Option Nat) : Nat → FS → List (List String × Json) → FS × Bool
  | _, fs, [] => (fs, true)
  | i, fs, (p, v) :: rest =>
    if failAt = some i then (fs, false)
    else
      match v with
      | Json.str c => writeGo failAt (i + 1) (fs.writeF p c) rest
      | _ => (fs, false)

/-- writePlanFiles(projectPath, files, version): create the versioned
folder (and the plan root) if absent, then perform the write sequence. -/
def writePlanFiles (failAt : Option Nat) (fs : FS) (planFolder : List String)
    (files : Json) (version : Nat) : FS × Bool :=
  let vf := planFolder ++ ["v" ++ toString version]
  let fs1 := if fs.dirExists vf then fs else (fs.addDir planFolder).addDir vf
  writeGo failAt 0 fs1 (planWriteList planFolder vf files)

/-! ## Sessions and the store -/

structure Message where
  id : String
  role : String
  content : String
  timestamp : Nat
deriving Repr, DecidableEq

structure Session where
  id : String
  projectName : String
  projectPath : String
  createdAt : Nat
  updatedAt : Nat
  messages : List Message
  planGenerated : Bool
  planVersion : Nat
deriving Repr, DecidableEq

/-- The persisted session store: one document per session id. -/
def Store : Type := String → Option Session

def getSession (store : Store) (sid : String) : Option Session :=
  store sid

/-- saveSession: refresh updatedAt, persist the whole document. -/
def saveSession (store : Store) (now : Nat) (s : Session) : Store :=
  fun k => if k = s.id then some { s with updatedAt := now } else store k

/-- addMessage(sessionId, message): load, append, save; null when the
session does not exist (nothing is written then). -/
def addMessage (store : Store) (now : Nat) (sid : String) (m : Message) :
    Option Session × Store :=
  match getSession store sid with
  | none => (none, store)
  | some s =>
    let s2 := { s with messages := s.messages ++ [m], updatedAt := now }
    (some s2, saveSession store now s2)

/-! ## The plan phase of a conversational turn

After the assistant response is appended, main() extracts, and when
`planJson && planJson.files` holds it computes the next version, writes
the plan files and only then sets planGenerated/planVersion; all of it
sits in a try/catch, so a throw inside writePlanFiles leaves the session
fields untouched (the files already written remain).
-/

def planPhase (failAt : Option Nat) (now : Nat) (planFolder : List String)
    (st : Session × FS) (response : String) : Session × FS :=
  match extractPlanJson response with
  | none => st
  | some planJson =>
    if planGuard planJson then
      let version := getNextPlanVersion st.2 planFolder
      let wr := writePlanFiles failAt st.2 planFolder (jsFilesOf planJson) version
      if wr.2 then
        ({ st.1 with planGenerated := true, planVersion := version, updatedAt := now }, wr.1)
      else (st.1, wr.1)
    else st

/-! ## Reachable states of the core

A state is the current session plus the filesystem under the plan root.
Steps: appending a message (user or assistant turn halves), a full plan
phase on an arbitrary response with an arbitrary write-failure point,
and switching to a fresh session (the `/new` command or startup).
-/

inductive Step (pf : List String) : Session × FS → Session × FS → Prop
  | msg (s : Session) (fs : FS) (m : Message) (now : Nat) :
      Step pf (s, fs) ({ s with messages := s.messages ++ [m], updatedAt := now }, fs)
  | turn (s : Session) (fs : FS) (failAt : Option Nat) (now : Nat) (response : String) :
      Step pf (s, fs) (planPhase failAt now pf (s, fs) response)
  | fresh (s : Session) (fs : FS) (s2 : Session) :
      s2.planGenerated = false → Step pf (s, fs) (s2, fs)

inductive Reachable (pf : List String) : Session × FS → Prop
  | init (s : Session) (fs : FS) :
      s.planGenerated = false → Reachable pf (s, fs)
  | step (st st2 : Session × FS) :
      Reachable pf st → Step pf st st2 → Reachable pf st2

/-! ## Helpers for theorem statements and concrete runs -/

/-- Concatenate lines the way the scanner accumulates jsonContent:
each line followed by a newline, appended to the accumulator. -/
def appendLines (s : String) (ls : List String) : String :=
  ls.foldl (fun a l => a ++ l ++ "\n") s

def unlines (ls : List String) : String :=
  appendLines "" ls

/-- Total brace-depth delta of a run of lines. -/
def linesDelta : List String → Int
  | [] => 0
  | l :: ls => braceDelta l + linesDelta ls

/-- Substring test (for stating that a text holds no fence marker). -/
def hasSubstr (needle : List Char) : List Char → Bool
  | [] => needle.isPrefixOf []
  | c :: rest => needle.isPrefixOf (c :: rest) || hasSubstr needle rest

/-- Does the text contain a fence marker (three backticks) anywhere? -/
def hasFence (s : String) : Bool :=
  hasSubstr "```".data s.data

/-- A fresh session as createSession builds it. -/
def sessionA : Session :=
  { id := "s1", projectName := "proj", projectPath := "pp", createdAt := 0, updatedAt := 0,
    messages := [], planGenerated := false, planVersion := 0 }

def fsEmpty : FS := ⟨[], []⟩

/-- An assistant response whose plan JSON has an empty `files` mapping. -/
def emptyFilesResponse : String := "```md\n\x7b\"files\":\x7b\x7d\x7d\n```"

/-- An assistant response whose plan JSON has one PRD section. -/
def prdFilesResponse : String := "```md\n\x7b\"files\":\x7b\"PRD\":\"x\"\x7d\x7d\n```"

/-- The state after one turn on `emptyFilesResponse`. -/
def emptyPlanState : Session × FS :=
  planPhase none 5 ["plan"] (sessionA, fsEmpty) emptyFilesResponse

/-- The state after one turn on `prdFilesResponse`. -/
def prdPlanState : Session × FS :=
  planPhase none 7 ["plan"] (sessionA, fsEmpty) prdFilesResponse

/-! ## Scanner lemmas -/

/-- Once the scanner has broken out of the loop, later lines are not
looked at. -/
theorem foldl_scanLine_done (ls : List String) (st : ScanState) (h : st.done = true) :
    ls.foldl scanLine st = st := by
  induction ls with
  | nil => rfl
  | cons l ls ih =>
    have hstep : scanLine st l = st := by simp [scanLine, h]
    rw [List.foldl_cons, hstep, ih]

/-- Outside a candidate block, lines that are not opening fences leave
the scanner state unchanged. -/
theorem foldl_scanLine_outside (ls : List String) (st : ScanState)
    (hd : st.done = false) (hb : st.inJsonBlock = false)
    (h : ∀ l ∈ ls, isOpener l = false) :
    ls.foldl scanLine st = st := by
  induction ls with
  | nil => rfl
  | cons l ls ih =>
    have hop := h l (List.mem_cons_self l ls)
    have hstep : scanLine st l = st := by simp [scanLine, hd, hb, hop]
    rw [List.foldl_cons, hstep, ih (fun x hx => h x (List.mem_cons_of_mem _ hx))]

/-- An opening fence line resets the candidate-block state. -/
theorem scanLine_opener (st : ScanState) (l : String)
    (hd : st.done = false) (hb : st.inJsonBlock = false) (hop : isOpener l = true) :
    scanLine st l = ⟨"", true, 0, false, false⟩ := by
  simp [scanLine, hd, hb, hop]

/-- Inside a candidate block before any line started the JSON object,
lines whose trimmed form does not begin with a brace are absorbed
without any state change — including bare closing fences and later
opening fences. -/
theorem foldl_scanLine_stale (ls : List String) (jc : String) (bc : Int)
    (h : ∀ l ∈ ls, jsStartsWith (jsTrim l) "\x7b" = false) :
    ls.foldl scanLine ⟨jc, true, bc, false, false⟩ = ⟨jc, true, bc, false, false⟩ := by
  induction ls with
  | nil => rfl
  | cons l ls ih =>
    have hop := h l (List.mem_cons_self l ls)
    have hstep : scanLine ⟨jc, true, bc, false, false⟩ l = ⟨jc, true, bc, false, false⟩ := by
      simp [scanLine, hop]
    rw [List.foldl_cons, hstep, ih (fun x hx => h x (List.mem_cons_of_mem _ hx))]

/-- Once the JSON object has started, every line that is not a bare
closing fence is appended to the buffer and counted into the brace
depth. -/
theorem foldl_scanLine_json (ls : List String) :
    ∀ (jc : String) (bc : Int), (∀ l ∈ ls, (jsTrim l == "```") = false) →
    ls.foldl scanLine ⟨jc, true, bc, true, false⟩
      = ⟨appendLines jc ls, true, bc + linesDelta ls, true, false⟩ := by
  induction ls with
  | nil =>
    intro jc bc _
    simp [appendLines, linesDelta]
  | cons l ls ih =>
    intro jc bc h
    have hop := h l (List.mem_cons_self l ls)
    have hstep : scanLine ⟨jc, true, bc, true, false⟩ l
        = ⟨jc ++ l ++ "\n", true, bc + braceDelta l, true, false⟩ := by
      simp [scanLine, hop]
    rw [List.foldl_cons, hstep, ih (jc ++ l ++ "\n") (bc + braceDelta l)
      (fun x hx => h x (List.mem_cons_of_mem _ hx))]
    have : bc + braceDelta l + linesDelta ls = bc + linesDelta (l :: ls) := by
      simp [linesDelta]; omega
    rw [this]
    rfl

/-- A bare closing fence with the object started and the braces balanced
stops the scan. -/
theorem scanLine_close (jc : String) (l : String) (hc : (jsTrim l == "```") = true) :
    scanLine ⟨jc, true, 0, true, false⟩ l = ⟨jc, true, 0, true, true⟩ := by
  simp [scanLine, hc]

/-- Master scanner run: arbitrary non-fence prefix, an opening fence,
stale lines none of which begins a brace, then the JSON lines (first one
beginning with a brace, none a bare fence, total brace delta zero), a
bare closing fence, and an arbitrary tail.  The scan ends broken-out
with exactly the JSON lines in the buffer. -/
theorem foldl_scanLine_main (pre : List String) (f : String) (stale : List String)
    (jh : String) (jt : List String) (c : String) (rest : List String)
    (h1 : ∀ l ∈ pre, isOpener l = false) (hf : isOpener f = true)
    (hstale : ∀ l ∈ stale, jsStartsWith (jsTrim l) "\x7b" = false)
    (h2 : jsStartsWith (jsTrim jh) "\x7b" = true)
    (h3 : ∀ l ∈ jh :: jt, (jsTrim l == "```") = false)
    (h4 : linesDelta (jh :: jt) = 0)
    (hc : (jsTrim c == "```") = true) :
    (pre ++ f :: (stale ++ (jh :: jt) ++ c :: rest)).foldl scanLine initScan
      = ⟨unlines (jh :: jt), true, 0, true, true⟩ := by
  rw [List.foldl_append, foldl_scanLine_outside pre initScan rfl rfl h1,
    List.foldl_cons, scanLine_opener initScan f rfl rfl hf,
    List.foldl_append, List.foldl_append, foldl_scanLine_stale stale "" 0 hstale]
  have hjh : scanLine ⟨"", true, 0, false, false⟩ jh
      = ⟨"" ++ jh ++ "\n", true, 0 + braceDelta jh, true, false⟩ := by
    simp [scanLine, h2]
  have hjson : List.foldl scanLine ⟨"", true, 0, false, false⟩ (jh :: jt)
      = ⟨unlines (jh :: jt), true, 0, true, false⟩ := by
    rw [List.foldl_cons, hjh, foldl_scanLine_json jt ("" ++ jh ++ "\n") (0 + braceDelta jh)
      (fun x hx => h3 x (List.mem_cons_of_mem _ hx))]
    have hbc : 0 + braceDelta jh + linesDelta jt = 0 := by
      have h4' : braceDelta jh + linesDelta jt = 0 := by simpa [linesDelta] using h4
      omega
    rw [hbc]
    rfl
  rw [hjson, List.foldl_cons, scanLine_close _ c hc,
    foldl_scanLine_done rest _ rfl]

/-- extractPlanJson on a response of the master shape parses exactly the
buffered JSON lines (the buffer is nonempty, so the fallback is not
consulted). -/
theorem extractPlanJson_block (r : String) (pre : List String) (f : String)
    (stale : List String) (jh : String) (jt : List String) (c : String) (rest : List String)
    (h0 : jsLines r = pre ++ f :: (stale ++ (jh :: jt) ++ c :: rest))
    (h1 : ∀ l ∈ pre, isOpener l = false) (hf : isOpener f = true)
    (hstale : ∀ l ∈ stale, jsStartsWith (jsTrim l) "\x7b" = false)
    (h2 : jsStartsWith (jsTrim jh) "\x7b" = true)
    (h3 : ∀ l ∈ jh :: jt, (jsTrim l == "```") = false)
    (h4 : linesDelta (jh :: jt) = 0)
    (hc : (jsTrim c == "```") = true)
    (h5 : (jsTrim (unlines (jh :: jt)) == "") = false) :
    extractPlanJson r = Json.parse (unlines (jh :: jt)) := by
  unfold extractPlanJson
  rw [h0, foldl_scanLine_main pre f stale jh jt c rest h1 hf hstale h2 h3 h4 hc]
  simp [h5]

/-- With no opening fence anywhere, the scanner accumulates nothing and
extractPlanJson is exactly the raw-JSON fallback. -/
theorem extractPlanJson_no_opener (r : String)
    (h : ∀ l ∈ jsLines r, isOpener l = false) :
    extractPlanJson r = rawJsonFallback r := by
  unfold extractPlanJson
  rw [foldl_scanLine_outside (jsLines r) initScan rfl rfl h]
  rfl

/-! ## PlanArtifactSet lemmas -/

/-- Characterization of the written sections: exactly the recognized
names whose value is present in `files` and truthy, with that value. -/
theorem mem_sectionsToWrite (files : Json) (name : String) (v : Json) :
    (name, v) ∈ sectionsToWrite files ↔
      name ∈ fileOrder ∧ jsGet files name = some v ∧ jsTruthy v = true := by
  unfold sectionsToWrite
  rw [List.mem_filterMap]
  constructor
  · rintro ⟨a, ha, hfa⟩
    cases hg : jsGet files a with
    | none => rw [hg] at hfa; simp at hfa
    | some w =>
      rw [hg] at hfa
      by_cases ht : jsTruthy w = true
      · simp [ht] at hfa
        obtain ⟨h1, h2⟩ := hfa
        subst h1; subst h2
        exact ⟨ha, hg, ht⟩
      · simp [ht] at hfa
  · rintro ⟨hmem, hget, ht⟩
    exact ⟨name, hmem, by simp [hget, ht]⟩

/-! ## Versioning and filesystem lemmas -/

theorem dirExists_iff (fs : FS) (d : List String) :
    fs.dirExists d = true ↔ d ∈ fs.dirs := by
  simp [FS.dirExists]

/-- A directory is never an immediate child of itself. -/
theorem childName_self (p : List String) : childName p p = none := by
  cases p with
  | nil => rfl
  | cons a as =>
    have hne : (a :: as).dropLast ≠ a :: as := by
      intro h
      have := congrArg List.length h
      simp [List.length_dropLast] at this
    have hbeq : ((a :: as).dropLast == a :: as) = false := beq_eq_false_iff_ne.mpr hne
    simp [childName, hbeq]

/-- The immediate child contributed by path `p ++ [n]` under `p`. -/
theorem childName_append (p : List String) (n : String) :
    childName p (p ++ [n]) = some n := by
  have h1 : ((p ++ [n]).dropLast == p) = true := by
    rw [List.dropLast_concat]
    exact beq_self_eq_true p
  have h2 : (p ++ [n]).getLast? = some n := List.getLast?_concat p
  simp [childName, h1, h2]

/-- getNextPlanVersion never returns less than 1. -/
theorem getNextPlanVersion_pos (fs : FS) (pf : List String) :
    1 ≤ getNextPlanVersion fs pf := by
  unfold getNextPlanVersion nextFromEntries
  split
  · dsimp only
    split
    · exact le_refl 1
    · exact Nat.succ_le_succ (Nat.zero_le _)
  · exact le_refl 1

/-- The write loop never touches the directory set. -/
theorem writeGo_dirs (failAt : Option Nat) (l : List (List String × Json)) :
    ∀ (i : Nat) (fs : FS), ((writeGo failAt i fs l).1).dirs = fs.dirs := by
  induction l with
  | nil => intro i fs; rfl
  | cons e l ih =>
    intro i fs
    obtain ⟨p, v⟩ := e
    unfold writeGo
    by_cases hf : failAt = some i
    · simp [hf]
    · cases v <;> simp [hf, ih, FS.writeF]

/-- writePlanFiles only ever adds directories. -/
theorem writePlanFiles_dirs_mono (failAt : Option Nat) (fs : FS) (pf : List String)
    (files : Json) (v : Nat) (d : List String) (h : fs.dirExists d = true) :
    ((writePlanFiles failAt fs pf files v).1).dirExists d = true := by
  unfold writePlanFiles
  rw [dirExists_iff, writeGo_dirs]
  rw [dirExists_iff] at h
  split
  · exact h
  · simp [FS.addDir]
    right; right; exact h

/-- writePlanFiles begins by creating the versioned folder, so it exists
in the resulting filesystem whether or not the writes complete. -/
theorem writePlanFiles_vf_exists (failAt : Option Nat) (fs : FS) (pf : List String)
    (files : Json) (v : Nat) :
    ((writePlanFiles failAt fs pf files v).1).dirExists (pf ++ ["v" ++ toString v]) = true := by
  unfold writePlanFiles
  rw [dirExists_iff, writeGo_dirs]
  split
  · rename_i hex
    exact (dirExists_iff fs _).mp hex
  · simp [FS.addDir]

/-! ## Claim C1 -/

/-- C1 counterexample: with plan-root entries v1, foo, v3abc the code
returns 2, not the claimed 4 — v3abc fails the whole-suffix digit test
and is ignored, leaving v1 as the only match. -/
theorem claim1_counterexample :
    getNextPlanVersion ⟨[], [["plan"], ["plan", "v1"], ["plan", "foo"], ["plan", "v3abc"]]⟩
      ["plan"] ≠ 4 := by
  decide

/-- C1 (amended): nextVersion returns 1 when the plan root is absent or
has no matching entry; with v1, v2, v7 it returns 8; with v1, foo,
v3abc (the latter two non-matching) it returns 2, ignoring the
non-matching names. -/
theorem claim1_nextVersion :
    getNextPlanVersion ⟨[], []⟩ ["plan"] = 1 ∧
    getNextPlanVersion ⟨[], [["plan"]]⟩ ["plan"] = 1 ∧
    getNextPlanVersion ⟨[], [["plan"], ["plan", "v1"], ["plan", "v2"], ["plan", "v7"]]⟩
      ["plan"] = 8 ∧
    getNextPlanVersion ⟨[], [["plan"], ["plan", "v1"], ["plan", "foo"], ["plan", "v3abc"]]⟩
      ["plan"] = 2 :=
  ⟨rfl, rfl, rfl, rfl⟩

/-! ## Claim C2 -/

/-- C2 counterexample: a response with no fence marker at all on which
extract nevertheless succeeds, through the raw-JSON fallback regex. -/
theorem claim2_counterexample :
    hasFence "\x7b\"files\": \x7b\x7d\x7d" = false ∧
    extractPlanJson "\x7b\"files\": \x7b\x7d\x7d" = some (Json.obj [("files", Json.obj [])]) :=
  ⟨rfl, rfl⟩

/-- C2 (amended): for every response with no fence-opening marker on any
line and on which the raw-JSON fallback also fails, extract returns
NotFound. -/
theorem claim2_no_fence (r : String)
    (h1 : ∀ l ∈ jsLines r, isOpener l = false)
    (h2 : rawJsonFallback r = none) :
    extractPlanJson r = none := by
  rw [extractPlanJson_no_opener r h1, h2]

/-- C2 witness: a fence-free response with no brace content at all is
NotFound. -/
theorem claim2_witness : extractPlanJson "no plan in this response" = none :=
  claim2_no_fence "no plan in this response" (by decide) (by rfl)

/-! ## Claim C3 -/

/-- C3 counterexample: a fenced payload whose `files` member is the
number 5 — extract succeeds (with an empty artifact set), yet the parsed
object does not contain a `files` mapping. -/
theorem claim3_counterexample :
    extract "```md\n\x7b\"files\":5\x7d\n```" = some [] ∧
    extractPlanJson "```md\n\x7b\"files\":5\x7d\n```"
      = some (Json.obj [("files", Json.num "5")]) ∧
    ∀ kvs : List (String × Json), Json.num "5" ≠ Json.obj kvs := by
  refine ⟨rfl, rfl, ?_⟩
  intro kvs h
  exact Json.noConfusion h

/-- C3 (amended): whenever extract succeeds, the parsed object has a
truthy `files` member; the artifact set consists of the recognized
sections present in it, and any section name outside the `files` mapping
is absent from the artifact set — absence is not an error. -/
theorem claim3_files_member (r : String) (arts : List (String × Json))
    (h : extract r = some arts) :
    ∃ planJson fv, extractPlanJson r = some planJson ∧
      jsGet planJson "files" = some fv ∧ jsTruthy fv = true ∧
      arts = sectionsToWrite fv ∧
      ∀ name v, (name, v) ∈ arts → jsGet fv name ≠ none := by
  unfold extract at h
  cases he : extractPlanJson r with
  | none => rw [he] at h; simp at h
  | some pj =>
    rw [he] at h
    dsimp only at h
    by_cases hg : planGuard pj = true
    · rw [if_pos hg] at h
      have hand := hg
      unfold planGuard at hand
      rw [Bool.and_eq_true] at hand
      obtain ⟨htr, hfil⟩ := hand
      cases hf : jsGet pj "files" with
      | none => rw [hf] at hfil; simp at hfil
      | some fv =>
        rw [hf] at hfil
        have hft : jsTruthy fv = true := hfil
        have harts : arts = sectionsToWrite fv := by
          have hfo : jsFilesOf pj = fv := by unfold jsFilesOf; rw [hf]; rfl
          rw [hfo] at h
          exact (Option.some.inj h).symm
        refine ⟨pj, fv, rfl, hf, hft, harts, ?_⟩
        intro name v hmem
        rw [harts] at hmem
        have hsome := ((mem_sectionsToWrite fv name v).mp hmem).2.1
        rw [hsome]
        simp
    · rw [if_neg hg] at h
      simp at h

/-- C3 witness: a successful extraction with one PRD section. -/
theorem claim3_witness :
    ∃ planJson fv, extractPlanJson prdFilesResponse = some planJson ∧
      jsGet planJson "files" = some fv ∧ jsTruthy fv = true ∧
      [("PRD", Json.str "x")] = sectionsToWrite fv ∧
      ∀ name v, (name, v) ∈ [("PRD", Json.str "x")] → jsGet fv name ≠ none :=
  claim3_files_member prdFilesResponse [("PRD", Json.str "x")] (by rfl)

/-! ## Claim C9 -/

/-- C9: appendMessage on a session id absent from the store returns
NotFound and leaves the persisted store untouched — no session is
implicitly created. -/
theorem claim9_appendMessage_notFound (store : Store) (now : Nat) (sid : String)
    (m : Message) (h : store sid = none) :
    addMessage store now sid m = (none, store) := by
  unfold addMessage getSession
  rw [h]

/-- C9 witness: appendMessage on the empty store. -/
theorem claim9_witness :
    addMessage (fun _ => none) 0 "missing" ⟨"m1", "user", "hi", 0⟩
      = (none, fun _ => none) :=
  claim9_appendMessage_notFound (fun _ => none) 0 "missing" ⟨"m1", "user", "hi", 0⟩ rfl

/-! ## Claim C10 -/

/-- C10: getNextPlanVersion counts plan-root entries regardless of
whether they are directories or plain files: an entry contributes the
same whether listed as a file or as a directory, and a plain file named
v5 makes the next version 6. -/
theorem claim10_files_counted :
    (∀ (p : List String) (n c : String),
        getNextPlanVersion ⟨[(p ++ [n], c)], [p]⟩ p
          = getNextPlanVersion ⟨[], [p, p ++ [n]]⟩ p) ∧
    (∀ c : String, getNextPlanVersion ⟨[(["plan", "v5"], c)], [["plan"]]⟩ ["plan"] = 6) := by
  constructor
  · intro p n c
    have hex1 : FS.dirExists ⟨[(p ++ [n], c)], [p]⟩ p = true := by
      rw [dirExists_iff]; exact List.mem_singleton.mpr rfl
    have hex2 : FS.dirExists ⟨[], [p, p ++ [n]]⟩ p = true := by
      rw [dirExists_iff]; exact List.mem_cons_self _ _
    have hrd1 : FS.readdir ⟨[(p ++ [n], c)], [p]⟩ p = [n] := by
      unfold FS.readdir
      simp [childName_self, childName_append]
    have hrd2 : FS.readdir ⟨[], [p, p ++ [n]]⟩ p = [n] := by
      unfold FS.readdir
      simp [childName_self, childName_append]
    simp [getNextPlanVersion, hex1, hex2, hrd1, hrd2]
  · intro c
    rfl

/-- One plan-phase step preserves (or establishes) the directory part
of the plan invariant. -/
theorem planPhase_invariant (pf : List String) (s : Session) (fs : FS)
    (failAt : Option Nat) (now : Nat) (response : String)
    (ih : s.planGenerated = true →
      1 ≤ s.planVersion ∧ fs.dirExists (pf ++ ["v" ++ toString s.planVersion]) = true) :
    (planPhase failAt now pf (s, fs) response).1.planGenerated = true →
    1 ≤ (planPhase failAt now pf (s, fs) response).1.planVersion ∧
    (planPhase failAt now pf (s, fs) response).2.dirExists
      (pf ++ ["v" ++ toString (planPhase failAt now pf (s, fs) response).1.planVersion])
      = true := by
  unfold planPhase
  cases he : extractPlanJson response with
  | none =>
    intro hpg
    exact ih hpg
  | some pj =>
    dsimp only
    by_cases hgd : planGuard pj = true
    · by_cases hw : (writePlanFiles failAt fs pf (jsFilesOf pj) (getNextPlanVersion fs pf)).2
          = true
      · simp only [hgd, hw, if_true]
        intro _
        exact ⟨getNextPlanVersion_pos fs pf,
          writePlanFiles_vf_exists failAt fs pf (jsFilesOf pj) _⟩
      · simp only [hgd, if_true, hw, if_false]
        intro hpg
        obtain ⟨h1, h2⟩ := ih hpg
        exact ⟨h1, writePlanFiles_dirs_mono failAt fs pf (jsFilesOf pj) _ _ h2⟩
    · simp only [hgd, if_false]
      intro hpg
      exact ih hpg

/-! ## Claim C4 -/

/-- C4 counterexample: a reachable state — one turn on a response whose
plan JSON has an empty `files` mapping — in which planGenerated is true
and planVersion is 1, the directory plan/v1/ was created, yet the
filesystem holds no file at all: the versioned directory contains no
artifact file. -/
theorem claim4_counterexample :
    Reachable ["plan"] emptyPlanState ∧
    emptyPlanState.1.planGenerated = true ∧
    emptyPlanState.1.planVersion = 1 ∧
    emptyPlanState.2.dirExists ["plan", "v1"] = true ∧
    emptyPlanState.2.files = [] := by
  refine ⟨Reachable.step (sessionA, fsEmpty) emptyPlanState
    (Reachable.init sessionA fsEmpty rfl)
    (Step.turn sessionA fsEmpty none 5 emptyFilesResponse), ?_, ?_, ?_, ?_⟩
  · decide
  · decide
  · decide
  · decide

/-- C4 (amended): in every state reachable by the core's operations,
planGenerated = true implies planVersion ≥ 1 and the directory
plan/v<planVersion>/ exists under the plan root.  (The original claim's
"contains at least one artifact file" fails — see the counterexample,
where the created versioned directory is empty.) -/
theorem claim4_invariant (pf : List String) (st : Session × FS)
    (hr : Reachable pf st) (hpg : st.1.planGenerated = true) :
    1 ≤ st.1.planVersion ∧
    st.2.dirExists (pf ++ ["v" ++ toString st.1.planVersion]) = true := by
  revert hpg
  induction hr with
  | init s fs h =>
    intro hpg
    simp [h] at hpg
  | step st st2 hr hstep ih =>
    cases hstep with
    | msg s fs m now =>
      intro hpg
      exact ih hpg
    | turn s fs failAt now response =>
      exact planPhase_invariant pf s fs failAt now response ih
    | fresh s fs s2 h2 =>
      intro hpg
      simp [h2] at hpg

/-- C4 witness: after a successful turn writing a PRD section, the
invariant holds of the reachable state. -/
theorem claim4_witness :
    1 ≤ prdPlanState.1.planVersion ∧
    prdPlanState.2.dirExists (["plan"] ++ ["v" ++ toString prdPlanState.1.planVersion])
      = true :=
  claim4_invariant ["plan"] prdPlanState
    (Reachable.step (sessionA, fsEmpty) prdPlanState
      (Reachable.init sessionA fsEmpty rfl)
      (Step.turn sessionA fsEmpty none 7 prdFilesResponse))
    (by decide)

/-! ## Claim C5 -/

/-- C5 counterexample: a well-formed fenced block whose `files` mapping
holds PRD with the empty string — the empty string fails the truthiness
test `if (files[fileName])`, so PRD is dropped from the artifact set
although it is present in `files`. -/
theorem claim5_counterexample :
    extract "```md\n\x7b\"files\":\x7b\"PRD\":\"\"\x7d\x7d\n```" = some [] ∧
    extractPlanJson "```md\n\x7b\"files\":\x7b\"PRD\":\"\"\x7d\x7d\n```"
      = some (Json.obj [("files", Json.obj [("PRD", Json.str "")])]) ∧
    ([] : List (String × Json)) ≠ [("PRD", Json.str "")] := by
  refine ⟨rfl, rfl, ?_⟩
  intro h
  exact List.noConfusion h

/-- C5 (amended): for every response whose first fence-opening line
begins a well-formed fenced block — JSON lines starting with a brace,
no bare fence among them, total brace delta zero, closed by a bare
fence — holding an object whose `files` member is a mapping, extract
returns the artifact set consisting of exactly the recognized sections
present in `files` with truthy values, values unchanged. -/
theorem claim5_fenced_extract (r : String) (pre : List String) (jh : String)
    (jt rest : List String) (kvs fkvs : List (String × Json))
    (h0 : jsLines r = pre ++ "```md" :: ((jh :: jt) ++ "```" :: rest))
    (h1 : ∀ l ∈ pre, isOpener l = false)
    (h2 : jsStartsWith (jsTrim jh) "\x7b" = true)
    (h3 : ∀ l ∈ jh :: jt, (jsTrim l == "```") = false)
    (h4 : linesDelta (jh :: jt) = 0)
    (h5 : (jsTrim (unlines (jh :: jt)) == "") = false)
    (h6 : Json.parse (unlines (jh :: jt)) = some (Json.obj kvs))
    (h7 : lookupLast kvs "files" = some (Json.obj fkvs)) :
    extract r = some (sectionsToWrite (Json.obj fkvs)) ∧
    ∀ name v, ((name, v) ∈ sectionsToWrite (Json.obj fkvs) ↔
      name ∈ fileOrder ∧ jsGet (Json.obj fkvs) name = some v ∧ jsTruthy v = true) := by
  have hext : extractPlanJson r = Json.parse (unlines (jh :: jt)) :=
    extractPlanJson_block r pre "```md" [] jh jt "```" rest h0 h1 (by decide)
      (by intro l hl; simp at hl) h2 h3 h4 (by decide) h5
  constructor
  · unfold extract
    rw [hext, h6]
    dsimp only
    have hg : planGuard (Json.obj kvs) = true := by
      unfold planGuard
      simp [jsGet, h7, jsTruthy]
    rw [if_pos hg]
    have hfo : jsFilesOf (Json.obj kvs) = Json.obj fkvs := by
      unfold jsFilesOf
      simp [jsGet, h7]
    rw [hfo]
  · intro name v
    exact mem_sectionsToWrite (Json.obj fkvs) name v

/-- C5 witness: prose, a fenced PRD plan, and a trailing line. -/
theorem claim5_witness :
    extract "intro\n```md\n\x7b\"files\":\x7b\"PRD\":\"x\"\x7d\x7d\n```\ndone"
      = some [("PRD", Json.str "x")] :=
  (claim5_fenced_extract "intro\n```md\n\x7b\"files\":\x7b\"PRD\":\"x\"\x7d\x7d\n```\ndone"
    ["intro"] "\x7b\"files\":\x7b\"PRD\":\"x\"\x7d\x7d" [] ["done"]
    [("files", Json.obj [("PRD", Json.str "x")])] [("PRD", Json.str "x")]
    (by rfl) (by decide) (by decide) (by decide) (by decide) (by decide)
    (by rfl) (by rfl)).1

/-! ## Claim C6 -/

/-- C6: a response with two fenced blocks, the first containing only
prose (no line starting with a brace), the second a JSON block with the
usual well-formedness conditions, yields the second block's content:
the scanner does not terminate on the first block's closing fence
because jsonStarted was never set there. -/
theorem claim6_two_blocks (r : String) (pre prose : List String) (jh : String)
    (jt rest : List String)
    (h0 : jsLines r
      = pre ++ "```md" :: (prose ++ "```" :: "```md" :: ((jh :: jt) ++ "```" :: rest)))
    (h1 : ∀ l ∈ pre, isOpener l = false)
    (hp : ∀ l ∈ prose, jsStartsWith (jsTrim l) "\x7b" = false)
    (h2 : jsStartsWith (jsTrim jh) "\x7b" = true)
    (h3 : ∀ l ∈ jh :: jt, (jsTrim l == "```") = false)
    (h4 : linesDelta (jh :: jt) = 0)
    (h5 : (jsTrim (unlines (jh :: jt)) == "") = false) :
    extractPlanJson r = Json.parse (unlines (jh :: jt)) := by
  have h0' : jsLines r
      = pre ++ "```md" :: ((prose ++ ["```", "```md"]) ++ (jh :: jt) ++ "```" :: rest) := by
    rw [h0]
    simp [List.append_assoc]
  have hstale : ∀ l ∈ prose ++ ["```", "```md"], jsStartsWith (jsTrim l) "\x7b" = false := by
    intro l hl
    rw [List.mem_append] at hl
    rcases hl with hl | hl
    · exact hp l hl
    · simp at hl
      rcases hl with rfl | rfl <;> decide
  exact extractPlanJson_block r pre "```md" (prose ++ ["```", "```md"]) jh jt "```" rest
    h0' h1 (by decide) hstale h2 h3 h4 (by decide) h5

/-- C6 witness: a prose-only block followed by the real JSON block. -/
theorem claim6_witness :
    extractPlanJson "```md\nhello\n```\n```md\n\x7b\"files\":\x7b\"PRD\":\"y\"\x7d\x7d\n```"
      = some (Json.obj [("files", Json.obj [("PRD", Json.str "y")])]) :=
  claim6_two_blocks "```md\nhello\n```\n```md\n\x7b\"files\":\x7b\"PRD\":\"y\"\x7d\x7d\n```"
    [] ["hello"] "\x7b\"files\":\x7b\"PRD\":\"y\"\x7d\x7d" [] []
    (by rfl) (by decide) (by decide) (by decide) (by decide) (by decide) (by decide)

/-! ## Claim C7 -/

/-- C7 counterexample: write with sections {PRD, TASKS} where PRD holds
the empty string — `if (files[fileName])` is false for "", so neither
v1/prd.md nor the root prd.md is produced, contradicting the claim's
"exactly these four files with contents verbatim" at this input. -/
theorem claim7_counterexample :
    writePlanFiles none ⟨[], []⟩ ["plan"]
        (Json.obj [("PRD", Json.str ""), ("TASKS", Json.str "x")]) 1
      = (⟨[(["plan", "tasks.md"], "x"), (["plan", "v1", "tasks.md"], "x")],
          [["plan", "v1"], ["plan"]]⟩, true) ∧
    FS.readF (writePlanFiles none ⟨[], []⟩ ["plan"]
        (Json.obj [("PRD", Json.str ""), ("TASKS", Json.str "x")]) 1).1
      ["plan", "v1", "prd.md"] = none :=
  ⟨by decide, by decide⟩

/-- C7 (amended): for every version N and non-empty section texts,
write with artifact set {PRD, TASKS} produces exactly v<N>/prd.md,
v<N>/tasks.md, root prd.md and root tasks.md under the plan root, each
byte-for-byte equal to the supplied markdown, and reports success. -/
theorem claim7_write_exact (N : Nat) (p t : String)
    (hp : (p != "") = true) (ht : (t != "") = true) :
    writePlanFiles none ⟨[], []⟩ ["plan"]
        (Json.obj [("PRD", Json.str p), ("TASKS", Json.str t)]) N
      = (⟨[(["plan", "tasks.md"], t), (["plan", "prd.md"], p),
           (["plan", "v" ++ toString N, "tasks.md"], t),
           (["plan", "v" ++ toString N, "prd.md"], p)],
          [["plan", "v" ++ toString N], ["plan"]]⟩, true) := by
  have hsec : sectionsToWrite (Json.obj [("PRD", Json.str p), ("TASKS", Json.str t)])
      = [("PRD", Json.str p), ("TASKS", Json.str t)] := by
    simp [sectionsToWrite, fileOrder, jsGet, lookupLast, jsTruthy, hp, ht]
  simp only [writePlanFiles, planWriteList, hsec]
  rfl

/-- C7 witness: version 1 with contents "a" and "b". -/
theorem claim7_witness :
    writePlanFiles none ⟨[], []⟩ ["plan"]
        (Json.obj [("PRD", Json.str "a"), ("TASKS", Json.str "b")]) 1
      = (⟨[(["plan", "tasks.md"], "b"), (["plan", "prd.md"], "a"),
           (["plan", "v1", "tasks.md"], "b"), (["plan", "v1", "prd.md"], "a")],
          [["plan", "v1"], ["plan"]]⟩, true) :=
  claim7_write_exact 1 "a" "b" (by decide) (by decide)

/-! ## Claim C8 -/

/-- C8: if the write call reports failure, the plan phase leaves the
session's planGenerated and planVersion untouched — a failed write never
marks the session as having a generated plan. -/
theorem claim8_failed_write (failAt : Option Nat) (now : Nat) (pf : List String)
    (s : Session) (fs : FS) (r : String) (planJson : Json)
    (he : extractPlanJson r = some planJson)
    (hg : planGuard planJson = true)
    (hw : (writePlanFiles failAt fs pf (jsFilesOf planJson) (getNextPlanVersion fs pf)).2
      = false) :
    (planPhase failAt now pf (s, fs) r).1.planGenerated = s.planGenerated ∧
    (planPhase failAt now pf (s, fs) r).1.planVersion = s.planVersion := by
  have hres : (planPhase failAt now pf (s, fs) r).1 = s := by
    unfold planPhase
    rw [he]
    dsimp only
    rw [if_pos hg]
    rw [hw]
    simp
  rw [hres]
  exact ⟨rfl, rfl⟩

/-- C8 witness: first write fails, session fields stay at their
pre-turn values. -/
theorem claim8_witness :
    (planPhase (some 0) 9 ["plan"] (sessionA, fsEmpty) prdFilesResponse).1.planGenerated
      = sessionA.planGenerated ∧
    (planPhase (some 0) 9 ["plan"] (sessionA, fsEmpty) prdFilesResponse).1.planVersion
      = sessionA.planVersion :=
  claim8_failed_write (some 0) 9 ["plan"] sessionA fsEmpty prdFilesResponse
    (Json.obj [("files", Json.obj [("PRD", Json.str "x")])]) (by rfl) (by rfl) (by rfl)

end Flowcode
